import Mathlib

/-!
Verification development for the classroom participation picker / scoring
engine of the English Genius application (`App.tsx`, given as
`src/unnamed/part_000`, with record shapes from `src/types.ts`).

Modelling conventions:
* JavaScript numbers are IEEE-754 binary64 doubles.  Integer-valued
  quantities below 2^53 are exact and modelled as `ℤ` or `ℕ`.  The decay
  formula's fractional arithmetic is modelled operation by operation over
  `ℚ` with an explicit round-to-nearest-even rounding to 53 significant
  bits (`roundDouble`) after every arithmetic operation, `Int.floor` for
  `Math.floor` and `max 0` for `Math.max(0, ·)`.  The 10% bonus
  `Math.floor(s * 0.10)` is modelled by the exact rational floor, which
  coincides with the double computation for every integer s in [0, 1000].
* Optional TypeScript fields (`score?`, `isCorrect?`, `isSpecialNeeds?`)
  are modelled as `Option`; JavaScript truthiness of an optional boolean is
  `Option.getD false`.
* React `useState` groups are modelled as explicit state records, and each
  handler as a pure function from the old state (plus its inputs) to the
  new state.
* `Math.random()`-driven choices are passed in as an explicit `rand`
  function; the index drawn at step `i` of the Fisher–Yates loop is
  `rand i % (i + 1)`, which ranges over exactly the interval `[0, i]`
  that `Math.floor(Math.random() * (i + 1))` produces.
-/

namespace EnglishGenius

/-- Student profile from `src/types.ts` (`StudentProfile`), restricted to the
fields the picker reads; `isSpecialNeeds?: boolean` is optional. -/
structure StudentProfile where
  name : String
  isSpecialNeeds : Option Bool
  deriving Repr, DecidableEq

/-- Session descriptor from `src/types.ts` (`SessionInfo`). -/
structure SessionInfo where
  date : String
  day : String
  period : ℤ
  grade : String
  deriving Repr, DecidableEq

/-- One scoring event, from `src/types.ts` (`ParticipationRecord`).
`durationSeconds`, `score` and `isCorrect` are optional fields there. -/
structure ParticipationRecord where
  id : String
  studentName : String
  grade : String
  date : String
  day : String
  period : ℤ
  timestamp : ℤ
  durationSeconds : Option ℚ
  score : Option ℤ
  isCorrect : Option Bool
  deriving Repr, DecidableEq

/-! Component: IEEE-754 binary64 rounding.

JavaScript evaluates the decay formula in binary64 doubles, rounding the
result of every arithmetic operation to 53 significant bits with
round-to-nearest, ties to even.  `roundDouble` is that rounding on exact
rational values; subnormal and overflow ranges are not modelled (no value
of the decay pipeline reaches them for any elapsed time that a double can
store exactly, and for absurdly large inputs the final clamped score is 0
under both treatments). -/

/-- Round a rational to the nearest integer, ties going to the even
integer — the tie-breaking rule of IEEE-754 round-to-nearest. -/
def roundNearestEvenInt (m : ℚ) : ℤ :=
  if m - ⌊m⌋ < 1 / 2 then ⌊m⌋
  else if 1 / 2 < m - ⌊m⌋ then ⌊m⌋ + 1
  else if ⌊m⌋ % 2 = 0 then ⌊m⌋ else ⌊m⌋ + 1

/-- Round a positive rational to 53 significant bits: scale into
[2^52, 2^53), round to the nearest integer (ties to even), scale back. -/
def roundPos (x : ℚ) : ℚ :=
  (roundNearestEvenInt (x * 2 ^ (52 - Int.log 2 x)) : ℚ) / 2 ^ (52 - Int.log 2 x)

/-- Binary64 round-to-nearest-even of an exact rational value. -/
def roundDouble (q : ℚ) : ℚ :=
  if q = 0 then 0
  else if 0 < q then roundPos q
  else - roundPos (-q)

/-- Double-precision division. -/
def fpDiv (a b : ℚ) : ℚ := roundDouble (a / b)

/-- Double-precision subtraction. -/
def fpSub (a b : ℚ) : ℚ := roundDouble (a - b)

/-- Double-precision multiplication. -/
def fpMul (a b : ℚ) : ℚ := roundDouble (a * b)

/-! Component: Decay scorer (`MiniStudentPopup` score effect, part_000 lines 297-313) -/

/-- Live decay score computed by the `MiniStudentPopup` effect from the
elapsed milliseconds: flat 1000 during the 3000ms grace period, then
`Math.max(0, Math.floor(1000 * (1 - fractionLost)))` where
`fractionLost = timeInDecay / decayWindow`, every arithmetic operation
rounded to binary64 as JavaScript does.  `timeInDecay = msElapsed - 3000`
and `decayWindow = 177000` are exact in doubles (integers below 2^53), so
only the division, the subtraction from 1 and the multiplication by 1000
round. -/
def decayScore (msElapsed : ℕ) : ℤ :=
  let totalDecayTime : ℚ := 180 * 1000
  let gracePeriod : ℚ := 3 * 1000
  if (msElapsed : ℚ) ≤ gracePeriod then 1000
  else
    let timeInDecay : ℚ := (msElapsed : ℚ) - gracePeriod
    let decayWindow : ℚ := totalDecayTime - gracePeriod
    let fractionLost : ℚ := fpDiv timeInDecay decayWindow
    max 0 ⌊fpMul 1000 (fpSub 1 fractionLost)⌋

/-! Component: Correct-resolution bonus (`handleCorrect`, part_000 lines 317-328) -/

/-- Bonus computed by `handleCorrect`: `Math.floor(scoreDisplay * 0.10)`. -/
def handleCorrectBonus (scoreDisplay : ℤ) : ℤ :=
  ⌊(scoreDisplay : ℚ) * (10 / 100)⌋

/-- Total awarded by `handleCorrect`: `scoreDisplay + bonus`. -/
def handleCorrectTotal (scoreDisplay : ℤ) : ℤ :=
  scoreDisplay + handleCorrectBonus scoreDisplay

/-! Component: Basic facts about the decay scorer -/

/-! Component: Weighted pool generator (`resetPicker` pool loop, part_000 lines 540-560)
and Fisher–Yates shuffle (`shuffleArray`, part_000 lines 531-538) -/

/-- Truthiness of `profile?.isSpecialNeeds` where
`profile = curriculum.studentProfiles.find(p => p.name === student)`. -/
def isFlagged (profiles : List StudentProfile) (student : String) : Bool :=
  match profiles.find? (fun p => p.name == student) with
  | some p => p.isSpecialNeeds.getD false
  | none => false

/-- Pool-building loop of `resetPicker`: push each student once, and three
more times when the student's profile is flagged special-needs. -/
def buildPool (studentList : List String) (profiles : List StudentProfile) : List String :=
  studentList.flatMap (fun student =>
    if isFlagged profiles student then [student, student, student, student] else [student])

/-- One in-place swap `[pool[i], pool[j]] = [pool[j], pool[i]]` of the
Fisher–Yates loop, on lists (out-of-range indices leave the list unchanged,
matching that the loop only uses in-range indices). -/
def swapIdx (l : List String) (i j : ℕ) : List String :=
  (l.set i (l.getD j "")).set j (l.getD i "")

/-- Backward Fisher–Yates loop of `shuffleArray`: at index `i` (counting
down to 1) swap position `i` with position `rand i % (i + 1)`, the model of
`Math.floor(Math.random() * (i + 1))`. -/
def shuffleAux (rand : ℕ → ℕ) : List String → ℕ → List String
  | l, 0 => l
  | l, i + 1 => shuffleAux rand (swapIdx l (i + 1) (rand (i + 1) % (i + 2))) i

/-- Model of `shuffleArray`: copy the array and run the backward swap loop from
`pool.length - 1` down to `1`. -/
def shuffleArray (rand : ℕ → ℕ) (array : List String) : List String :=
  shuffleAux rand array (array.length - 1)

/-! Component: Session aggregator (`leaderboardData`, part_000 lines 776-787) -/

/-- Points contributed by one record: `r.score !== undefined ? r.score : 1`. -/
def points (r : ParticipationRecord) : ℤ := r.score.getD 1

/-- Filter predicate of `leaderboardData`:
`r.date === s.date && r.grade === s.grade && Number(r.period) === Number(s.period) && r.isCorrect`
(periods are numeric in the model, so `Number` coercion is the identity). -/
def recMatchesSession (s : SessionInfo) (r : ParticipationRecord) : Bool :=
  r.date == s.date && r.grade == s.grade && r.period == s.period && r.isCorrect.getD false

/-- One step of the accumulation loop
`scores[r.studentName] = (scores[r.studentName] || 0) + points`, on the
association list that models the `scores` object in property-insertion
order: an existing key is updated in place, a new key is appended. -/
def bumpScore : List (String × ℤ) → String → ℤ → List (String × ℤ)
  | [], name, pts => [(name, pts)]
  | (n, v) :: rest, name, pts =>
    if n == name then (n, v + pts) :: rest else (n, v) :: bumpScore rest name pts

/-- The whole `sessionRecords.forEach` accumulation producing
`Object.entries(scores)` in insertion order. -/
def tally (rs : List ParticipationRecord) : List (String × ℤ) :=
  rs.foldl (fun acc r => bumpScore acc r.studentName (points r)) []

/-- Stable descending insertion: the model of where
`.sort((a, b) => b.score - a.score)` (a stable sort under that comparator)
places one element among already-sorted ones. -/
def insertDesc (p : String × ℤ) : List (String × ℤ) → List (String × ℤ)
  | [] => [p]
  | q :: rest => if q.2 ≤ p.2 then p :: q :: rest else q :: insertDesc p rest

/-- Stable sort by score descending, the model of
`.sort((a, b) => b.score - a.score)`. -/
def sortDesc (l : List (String × ℤ)) : List (String × ℤ) := l.foldr insertDesc []

/-- The derived leaderboard (`leaderboardData` memo): filter the ledger to
the current session's correct records, sum per student, sort descending. -/
def leaderboardData (records : List ParticipationRecord) (s : SessionInfo) :
    List (String × ℤ) :=
  sortDesc (tally (records.filter (recMatchesSession s)))

/-- Value stored under a name in the accumulator association list. -/
def lookupScore (acc : List (String × ℤ)) (name : String) : Option ℤ :=
  (acc.find? (fun p => p.1 == name)).map (fun p => p.2)

/-- Total points of one student over a record list. -/
def sumPoints (name : String) (rs : List ParticipationRecord) : ℤ :=
  ((rs.filter (fun r => r.studentName == name)).map points).sum

/-! Component: Participation logging (`logParticipation`, part_000 lines 697-720;
`handleModalLog`, lines 763-772; `handleCorrect`/`handleIncorrect`,
lines 317-339) -/

/-- Record built by `logParticipation`: note `score: isCorrect ? score : 0`. -/
def mkLoggedRecord (s : SessionInfo) (id : String) (studentName : String)
    (timestamp : ℤ) (durationSeconds : ℚ) (isCorrect : Bool) (score : ℤ) :
    ParticipationRecord :=
  { id := id
    studentName := studentName
    grade := s.grade
    date := s.date
    day := s.day
    period := s.period
    timestamp := timestamp
    durationSeconds := some durationSeconds
    score := some (if isCorrect then score else 0)
    isCorrect := some isCorrect }

/-- Ledger update of `logParticipation`: append the new record: `[...prev, newRecord]`. -/
def logParticipation (records : List ParticipationRecord) (s : SessionInfo)
    (id : String) (studentName : String) (timestamp : ℤ) (durationSeconds : ℚ)
    (isCorrect : Bool) (score : ℤ) : List ParticipationRecord :=
  records ++ [mkLoggedRecord s id studentName timestamp durationSeconds isCorrect score]

/-- Points passed to `onLog` by the popup at judgment time: `handleCorrect`
sends `scoreDisplay + bonus`, `handleIncorrect` sends `0`; `handleModalLog`
then forwards `isCorrect ? points : 0` to `logParticipation`. -/
def resolvedPoints (liveScore : ℤ) (isCorrect : Bool) : ℤ :=
  if isCorrect then handleCorrectTotal liveScore else 0

/-- The record a full resolution appends to the ledger: the live score is
`decayScore msElapsed` frozen at judgment, `handleCorrect`/`handleIncorrect`
turn it into awarded points, and `logParticipation` stores them. -/
def resolutionRecord (s : SessionInfo) (id : String) (studentName : String)
    (timestamp : ℤ) (msElapsed : ℕ) (isCorrect : Bool) : ParticipationRecord :=
  mkLoggedRecord s id studentName timestamp ((msElapsed : ℚ) / 1000) isCorrect
    (resolvedPoints (decayScore msElapsed) isCorrect)

/-! Component: Picker state machine (`pickStudent`, part_000 lines 728-737;
`resetPicker`, lines 540-560) -/

/-- The teacher-mode picker state slice of the `App` component. -/
structure PickerState where
  remainingPool : List String
  poolSizeDisplay : ℕ
  activeStudent : Option String
  activeStudentModalVisible : Bool
  resetKey : ℕ
  deriving Repr, DecidableEq

/-- State update of `resetPicker`: rebuild the weighted pool from the
session's roster (`studentsByGrade[sessionInfo.grade]`, passed in as
`roster`) and the curriculum profiles, shuffle it, clear the active
student and bump the reset key. -/
def resetPicker (st : PickerState) (roster : List String)
    (profiles : List StudentProfile) (rand : ℕ → ℕ) : PickerState :=
  let shuffled := shuffleArray rand (buildPool roster profiles)
  { st with
    remainingPool := shuffled
    poolSizeDisplay := shuffled.length
    activeStudent := none
    resetKey := st.resetKey + 1 }

/-- Draw step `pickStudent`: when the pool is empty, call `resetPicker()` and return;
otherwise pop the first name as the active student and show the popup. -/
def pickStudent (st : PickerState) (roster : List String)
    (profiles : List StudentProfile) (rand : ℕ → ℕ) : PickerState :=
  if st.remainingPool.length = 0 then
    resetPicker st roster profiles rand
  else
    { st with
      remainingPool := st.remainingPool.drop 1
      activeStudent := st.remainingPool.head?
      activeStudentModalVisible := true }

/-! Component: Session reset (`handleResetLeaderboard`, part_000 lines 745-761) -/

/-- Record filter kept by `handleResetLeaderboard`:
`r.date !== s.date || r.grade !== s.grade || Number(r.period) !== Number(s.period)`. -/
def handleResetLeaderboard (records : List ParticipationRecord) (s : SessionInfo) :
    List ParticipationRecord :=
  records.filter (fun r =>
    !(r.date == s.date) || !(r.grade == s.grade) || !(r.period == s.period))

/-! Component: Defensive storage reads (`safeJSONParse`, part_000 lines 22-30;
`getParticipationRecordsFromStorage`, lines 32-34)

The platform builtin `JSON.parse` is not repository code; it is modelled
below by a recursive-descent parser of the JSON grammar (value = object,
array, string, number, `true`, `false`, `null`), returning `Except` where
the builtin throws.  The model keeps the parsed value untyped (the
TypeScript code merely casts it), and `Char.ofNat` stands in for UTF-16
code-unit escapes. -/

/-- Untyped JSON value, as produced by `JSON.parse` (numbers kept as their
source lexemes). -/
inductive Json where
  | null
  | bool (b : Bool)
  | num (lit : String)
  | str (s : String)
  | arr (elems : List Json)
  | obj (fields : List (String × Json))

def quoteChar : Char := Char.ofNat 34

def backslashChar : Char := Char.ofNat 92

def lbraceChar : Char := Char.ofNat 123

def rbraceChar : Char := Char.ofNat 125

def lbrackChar : Char := Char.ofNat 91

def rbrackChar : Char := Char.ofNat 93

/-- JSON insignificant whitespace: space, tab, line feed, carriage return. -/
def isJsonWs (c : Char) : Bool :=
  c == ' ' || c == Char.ofNat 9 || c == Char.ofNat 10 || c == Char.ofNat 13

def skipWs : List Char → List Char
  | [] => []
  | c :: cs => if isJsonWs c then skipWs cs else c :: cs

/-- Single-character JSON string escapes. -/
def escapeChar (c : Char) : Option Char :=
  if c = quoteChar then some quoteChar
  else if c = backslashChar then some backslashChar
  else if c = '/' then some '/'
  else if c = 'b' then some (Char.ofNat 8)
  else if c = 'f' then some (Char.ofNat 12)
  else if c = 'n' then some (Char.ofNat 10)
  else if c = 'r' then some (Char.ofNat 13)
  else if c = 't' then some (Char.ofNat 9)
  else none

def hexVal (c : Char) : Option ℕ :=
  let n := c.toNat
  if 48 ≤ n ∧ n ≤ 57 then some (n - 48)
  else if 65 ≤ n ∧ n ≤ 70 then some (n - 55)
  else if 97 ≤ n ∧ n ≤ 102 then some (n - 87)
  else none

/-- Body of a JSON string after the opening quote: returns the decoded
content and the input remaining after the closing quote. -/
def takeStringBody : List Char → Option (List Char × List Char)
  | [] => none
  | c :: cs =>
    if c = quoteChar then some ([], cs)
    else if c = backslashChar then
      match cs with
      | [] => none
      | e :: cs' =>
        if e = 'u' then
          match cs' with
          | h1 :: h2 :: h3 :: h4 :: cs'' =>
            match hexVal h1, hexVal h2, hexVal h3, hexVal h4 with
            | some a, some b, some c4, some d =>
              match takeStringBody cs'' with
              | some (content, rest) =>
                some (Char.ofNat (((a * 16 + b) * 16 + c4) * 16 + d) :: content, rest)
              | none => none
            | _, _, _, _ => none
          | _ => none
        else
          match escapeChar e with
          | some ec =>
            match takeStringBody cs' with
            | some (content, rest) => some (ec :: content, rest)
            | none => none
          | none => none
    else
      match takeStringBody cs with
      | some (content, rest) => some (c :: content, rest)
      | none => none

def isDigitChar (c : Char) : Bool := 48 ≤ c.toNat && c.toNat ≤ 57

/-- Longest digit run at the front of the input. -/
def digitSpan : List Char → List Char × List Char
  | [] => ([], [])
  | c :: cs =>
    if isDigitChar c then
      let (d, r) := digitSpan cs
      (c :: d, r)
    else ([], c :: cs)

/-- Optional fraction part `. digits` of a JSON number. -/
def parseFracPart (cs : List Char) : Option (List Char × List Char) :=
  match cs with
  | c :: rest =>
    if c = '.' then
      match digitSpan rest with
      | ([], _) => none
      | (d, r) => some (c :: d, r)
    else some ([], cs)
  | [] => some ([], [])

/-- Optional exponent part `(e|E) (+|-)? digits` of a JSON number. -/
def parseExpPart (cs : List Char) : Option (List Char × List Char) :=
  match cs with
  | c :: rest =>
    if c = 'e' ∨ c = 'E' then
      let (sgn, rest') := match rest with
        | c2 :: rest2 => if c2 = '+' ∨ c2 = '-' then ([c2], rest2) else ([], rest)
        | [] => ([], [])
      match digitSpan rest' with
      | ([], _) => none
      | (d, r) => some (c :: (sgn ++ d), r)
    else some ([], cs)
  | [] => some ([], [])

/-- JSON number lexeme `-? int frac? exp?` with `int = 0 | [1-9][0-9]*`. -/
def parseNumberLex (cs : List Char) : Option (List Char × List Char) :=
  let (sgn, cs1) := match cs with
    | c :: rest => if c = '-' then ([c], rest) else ([], cs)
    | [] => ([], [])
  match cs1 with
  | [] => none
  | c :: rest =>
    let intPart : Option (List Char × List Char) :=
      if c.toNat = 48 then some ([c], rest)
      else if 49 ≤ c.toNat ∧ c.toNat ≤ 57 then
        let (d, r) := digitSpan rest
        some (c :: d, r)
      else none
    match intPart with
    | none => none
    | some (ip, r1) =>
      match parseFracPart r1 with
      | none => none
      | some (fp, r2) =>
        match parseExpPart r2 with
        | none => none
        | some (ep, r3) => some (sgn ++ ip ++ fp ++ ep, r3)

mutual

/-- Recursive-descent JSON value parser; the fuel argument decreases at
every recursive call and starting it at one more than the input length
makes it inexhaustible on any actual run. -/
def parseJsonValue : ℕ → List Char → Except String (Json × List Char)
  | 0, _ => .error "parser fuel exhausted"
  | fuel + 1, cs =>
    match skipWs cs with
    | [] => .error "unexpected end of JSON input"
    | c :: rest =>
      if c = lbraceChar then
        match skipWs rest with
        | c2 :: rest2 =>
          if c2 = rbraceChar then .ok (Json.obj [], rest2)
          else
            match parseJsonMembers fuel (c2 :: rest2) with
            | .ok (fields, rest3) => .ok (Json.obj fields, rest3)
            | .error e => .error e
        | [] => .error "unexpected end of JSON input"
      else if c = lbrackChar then
        match skipWs rest with
        | c2 :: rest2 =>
          if c2 = rbrackChar then .ok (Json.arr [], rest2)
          else
            match parseJsonElements fuel (c2 :: rest2) with
            | .ok (elems, rest3) => .ok (Json.arr elems, rest3)
            | .error e => .error e
        | [] => .error "unexpected end of JSON input"
      else if c = quoteChar then
        match takeStringBody rest with
        | some (content, rest2) => .ok (Json.str (String.mk content), rest2)
        | none => .error "bad string in JSON"
      else if c = 't' then
        match rest with
        | 'r' :: 'u' :: 'e' :: rest2 => .ok (Json.bool true, rest2)
        | _ => .error "unexpected token in JSON"
      else if c = 'f' then
        match rest with
        | 'a' :: 'l' :: 's' :: 'e' :: rest2 => .ok (Json.bool false, rest2)
        | _ => .error "unexpected token in JSON"
      else if c = 'n' then
        match rest with
        | 'u' :: 'l' :: 'l' :: rest2 => .ok (Json.null, rest2)
        | _ => .error "unexpected token in JSON"
      else
        match parseNumberLex (c :: rest) with
        | some (lex, rest2) => .ok (Json.num (String.mk lex), rest2)
        | none => .error "unexpected token in JSON"

/-- Comma-separated values up to the closing bracket of a JSON array. -/
def parseJsonElements : ℕ → List Char → Except String (List Json × List Char)
  | 0, _ => .error "parser fuel exhausted"
  | fuel + 1, cs =>
    match parseJsonValue fuel cs with
    | .error e => .error e
    | .ok (v, rest) =>
      match skipWs rest with
      | c :: rest2 =>
        if c = ',' then
          match parseJsonElements fuel rest2 with
          | .ok (vs, rest3) => .ok (v :: vs, rest3)
          | .error e => .error e
        else if c = rbrackChar then .ok ([v], rest2)
        else .error "expected comma or closing bracket in JSON array"
      | [] => .error "unexpected end of JSON input"

/-- Comma-separated `"key": value` members up to the closing brace of a
JSON object. -/
def parseJsonMembers : ℕ → List Char → Except String (List (String × Json) × List Char)
  | 0, _ => .error "parser fuel exhausted"
  | fuel + 1, cs =>
    match skipWs cs with
    | c :: rest =>
      if c = quoteChar then
        match takeStringBody rest with
        | some (key, rest1) =>
          match skipWs rest1 with
          | c2 :: rest2 =>
            if c2 = ':' then
              match parseJsonValue fuel rest2 with
              | .error e => .error e
              | .ok (v, rest3) =>
                match skipWs rest3 with
                | c3 :: rest4 =>
                  if c3 = ',' then
                    match parseJsonMembers fuel rest4 with
                    | .ok (kvs, rest5) => .ok ((String.mk key, v) :: kvs, rest5)
                    | .error e => .error e
                  else if c3 = rbraceChar then .ok ([(String.mk key, v)], rest4)
                  else .error "expected comma or closing brace in JSON object"
                | [] => .error "unexpected end of JSON input"
            else .error "expected colon in JSON object"
          | [] => .error "unexpected end of JSON input"
        | none => .error "bad string in JSON"
      else .error "expected property name in JSON object"
    | [] => .error "unexpected end of JSON input"

end

/-- Model of `JSON.parse`: parse one value and require only whitespace to
follow. -/
def jsonParse (s : String) : Except String Json :=
  match parseJsonValue (s.length + 1) s.data with
  | .error e => .error e
  | .ok (v, rest) =>
    if skipWs rest = [] then .ok v
    else .error "unexpected non-whitespace character after JSON"

/-- Defensive parse `safeJSONParse` (part_000 lines 22-30): a falsy stored item (null or the
empty string) yields the fallback, and so does a parse failure that the
builtin would throw. -/
def safeJSONParse (item : Option String) (fallback : Json) : Json :=
  match item with
  | none => fallback
  | some s =>
    if s = "" then fallback
    else
      match jsonParse s with
      | .ok v => v
      | .error _ => fallback

/-- Storage read `getParticipationRecordsFromStorage`: read the participation-records key
with `[]` as fallback. -/
def getParticipationRecordsFromStorage (stored : Option String) : Json :=
  safeJSONParse stored (Json.arr [])

/-! Component: Session setup date validation (`handleDateChange`, part_000 lines
217-229)

The platform `Date` builtin is not repository code.  For an input string
`"YYYY-MM-DD"` (the only non-empty values an HTML date input produces),
`new Date(str + "T00:00:00Z").getUTCDay()` is the proleptic-Gregorian day
of week of that calendar date, 0 = Sunday … 6 = Saturday; it is modelled
below by Zeller's congruence, and
`toLocaleDateString("en-US", { weekday: "long", timeZone: "UTC" })` by the
corresponding English weekday name. -/

/-- Split a character list into the runs separated by dashes. -/
def splitOnDash : List Char → List (List Char)
  | [] => [[]]
  | c :: cs =>
    if c = '-' then [] :: splitOnDash cs
    else
      match splitOnDash cs with
      | [] => [[c]]
      | g :: gs => (c :: g) :: gs

/-- Decimal value of a non-empty all-digit character run. -/
def charsToNat (cs : List Char) : Option ℕ :=
  if cs ≠ [] ∧ cs.all isDigitChar then
    some (cs.foldl (fun acc c => acc * 10 + (c.toNat - 48)) 0)
  else none

/-- Split a `"YYYY-MM-DD"` date-input value into numeric fields. -/
def parseISODate (s : String) : Option (ℕ × ℕ × ℕ) :=
  match (splitOnDash s.data).map charsToNat with
  | [some y, some m, some d] => some (y, m, d)
  | _ => none

/-- Day of week of a Gregorian date (0 = Sunday … 6 = Saturday), the model
of `getUTCDay` for midnight UTC of that date, via Zeller's congruence
(defined for years ≥ 1). -/
def getUTCDay (year month day : ℕ) : ℕ :=
  let m := if month ≤ 2 then month + 12 else month
  let y := if month ≤ 2 then year - 1 else year
  let K := y % 100
  let J := y / 100
  let h := (day + 13 * (m + 1) / 5 + K + K / 4 + J / 4 + 5 * J) % 7
  (h + 6) % 7

/-- English weekday name as produced by
`toLocaleDateString("en-US", { weekday: "long" })`, indexed like
`getUTCDay`. -/
def weekdayName (dow : ℕ) : String :=
  match dow with
  | 0 => "Sunday"
  | 1 => "Monday"
  | 2 => "Tuesday"
  | 3 => "Wednesday"
  | 4 => "Thursday"
  | 5 => "Friday"
  | _ => "Saturday"

/-- The `SessionSetup` state slice touched by `handleDateChange`. -/
structure SetupState where
  date : String
  day : String
  error : String
  deriving Repr, DecidableEq

/-- Date handler `handleDateChange`: an empty value returns immediately; a date whose
UTC weekday is 5 or 6 only sets the inline error; any other date stores the
date, derives the weekday name and clears the error.  (An unparseable
non-empty string would produce an invalid `Date` in JavaScript, whose
weekday is `NaN` — never 5 or 6 — and whose formatted name is the string
`"Invalid Date"`; an HTML date input never produces one.) -/
def handleDateChange (st : SetupState) (newDateStr : String) : SetupState :=
  if newDateStr = "" then st
  else
    match parseISODate newDateStr with
    | some (y, m, d) =>
      let dayOfWeek := getUTCDay y m d
      if dayOfWeek = 5 ∨ dayOfWeek = 6 then
        { st with error := "School days are Sunday to Thursday." }
      else
        { date := newDateStr, day := weekdayName dayOfWeek, error := "" }
    | none => { date := newDateStr, day := "Invalid Date", error := "" }

/-! Component: concrete sample inputs used by witness theorems. -/

/-- Sample roster with two students. -/
def demoRoster : List String := ["Amy", "Bo"]

/-- Sample profiles: Bo is flagged special-needs, Amy has no profile. -/
def demoProfiles : List StudentProfile := [{ name := "Bo", isSpecialNeeds := some true }]

/-- Sample session. -/
def demoSession : SessionInfo :=
  { date := "2024-01-01", day := "Monday", period := 3, grade := "Grade 3 O" }

/-- Sample record matching `demoSession`. -/
def demoRecordMatch : ParticipationRecord :=
  { id := "r1", studentName := "Amy", grade := "Grade 3 O", date := "2024-01-01",
    day := "Monday", period := 3, timestamp := 0, durationSeconds := some 2,
    score := some 100, isCorrect := some true }

/-- Sample record differing from `demoSession` only in its period. -/
def demoRecordOtherPeriod : ParticipationRecord :=
  { id := "r2", studentName := "Bo", grade := "Grade 3 O", date := "2024-01-01",
    day := "Monday", period := 2, timestamp := 0, durationSeconds := some 2,
    score := some 50, isCorrect := some true }

/-- Picker state with an exhausted pool. -/
def emptyPoolState : PickerState :=
  { remainingPool := [], poolSizeDisplay := 0, activeStudent := none,
    activeStudentModalVisible := false, resetKey := 0 }

/-- Picker state with two names left in the pool. -/
def twoPoolState : PickerState :=
  { remainingPool := ["Bo", "Amy"], poolSizeDisplay := 2, activeStudent := none,
    activeStudentModalVisible := false, resetKey := 0 }

/-- Sample setup state for the date-change witness. -/
def demoSetupState : SetupState :=
  { date := "2026-02-09", day := "Monday", error := "" }

/-! Supporting lemmas about the embedded definitions. -/

theorem handleCorrectBonus_eq_ediv (s : ℤ) : handleCorrectBonus s = s / 10 := by
  have h : ((s : ℚ) * (10 / 100)) = (s : ℚ) / ((10 : ℕ) : ℚ) := by
    push_cast
    ring
  rw [handleCorrectBonus, h, Rat.floor_intCast_div_natCast]
  norm_num

theorem floor_le_rne (m : ℚ) : ⌊m⌋ ≤ roundNearestEvenInt m := by
  unfold roundNearestEvenInt
  split_ifs <;> omega

theorem rne_le_floor_add_one (m : ℚ) : roundNearestEvenInt m ≤ ⌊m⌋ + 1 := by
  unfold roundNearestEvenInt
  split_ifs <;> omega

theorem rne_intCast (k : ℤ) : roundNearestEvenInt (k : ℚ) = k := by
  unfold roundNearestEvenInt
  rw [Int.floor_intCast]
  norm_num

theorem rne_mono {m₁ m₂ : ℚ} (h : m₁ ≤ m₂) :
    roundNearestEvenInt m₁ ≤ roundNearestEvenInt m₂ := by
  rcases lt_or_le ⌊m₁⌋ ⌊m₂⌋ with hf | hf
  · have h1 := rne_le_floor_add_one m₁
    have h2 := floor_le_rne m₂
    omega
  · have heq : ⌊m₁⌋ = ⌊m₂⌋ := le_antisymm (Int.floor_le_floor h) hf
    have hfr : m₁ - (⌊m₁⌋ : ℚ) ≤ m₂ - (⌊m₂⌋ : ℚ) := by
      rw [heq]
      linarith
    unfold roundNearestEvenInt
    rw [heq]
    split_ifs <;> first | omega | linarith

theorem int_log2_eq {x : ℚ} (e : ℤ) (hx : 0 < x) (h1 : (2 : ℚ) ^ e ≤ x)
    (h2 : x < (2 : ℚ) ^ (e + 1)) : Int.log 2 x = e := by
  have hc : ((2 : ℕ) : ℚ) = (2 : ℚ) := by norm_num
  have hle : e ≤ Int.log 2 x :=
    (Int.zpow_le_iff_le_log one_lt_two hx).mp (by rw [hc]; exact h1)
  have hlt : Int.log 2 x < e + 1 :=
    (Int.lt_zpow_iff_log_lt one_lt_two hx).mp (by rw [hc]; exact h2)
  omega

theorem log2_zpow_le_self {x : ℚ} (hx : 0 < x) : (2 : ℚ) ^ (Int.log 2 x) ≤ x := by
  have := Int.zpow_log_le_self (R := ℚ) one_lt_two hx
  simpa using this

theorem lt_log2_zpow_succ (x : ℚ) : x < (2 : ℚ) ^ (Int.log 2 x + 1) := by
  have := Int.lt_zpow_succ_log_self (R := ℚ) one_lt_two x
  simpa using this

theorem zpow_split_52 (e : ℤ) : (2 : ℚ) ^ e * 2 ^ (52 - e) = 4503599627370496 := by
  rw [← zpow_add₀ (by norm_num : (2 : ℚ) ≠ 0)]
  have h : e + (52 - e) = (52 : ℤ) := by ring
  rw [h]
  norm_num

theorem zpow_split_53 (e : ℤ) :
    (2 : ℚ) ^ (e + 1) * 2 ^ (52 - e) = 9007199254740992 := by
  rw [← zpow_add₀ (by norm_num : (2 : ℚ) ≠ 0)]
  have h : e + 1 + (52 - e) = (53 : ℤ) := by ring
  rw [h]
  norm_num

theorem roundPos_lower {x : ℚ} (hx : 0 < x) :
    (2 : ℚ) ^ (Int.log 2 x) ≤ roundPos x := by
  set e := Int.log 2 x with he
  have hscale : (0 : ℚ) < 2 ^ (52 - e) := zpow_pos (by norm_num) _
  have hm : (4503599627370496 : ℚ) ≤ x * 2 ^ (52 - e) := by
    rw [← zpow_split_52 e]
    exact mul_le_mul_of_nonneg_right (log2_zpow_le_self hx) hscale.le
  have hfl : (4503599627370496 : ℤ) ≤ ⌊x * 2 ^ (52 - e)⌋ := by
    rw [Int.le_floor]
    push_cast
    exact hm
  have hq : (4503599627370496 : ℚ) ≤ (roundNearestEvenInt (x * 2 ^ (52 - e)) : ℚ) := by
    exact_mod_cast le_trans hfl (floor_le_rne _)
  rw [roundPos, ← he]
  have h2 : (2 : ℚ) ^ e = (4503599627370496 : ℚ) / 2 ^ (52 - e) := by
    rw [eq_div_iff hscale.ne']
    exact zpow_split_52 e
  rw [h2]
  exact (div_le_div_iff_of_pos_right hscale).2 hq

theorem roundPos_upper {x : ℚ} (_hx : 0 < x) :
    roundPos x ≤ (2 : ℚ) ^ (Int.log 2 x + 1) := by
  set e := Int.log 2 x with he
  have hscale : (0 : ℚ) < 2 ^ (52 - e) := zpow_pos (by norm_num) _
  have hm : x * 2 ^ (52 - e) < 9007199254740992 := by
    rw [← zpow_split_53 e]
    exact mul_lt_mul_of_pos_right (lt_log2_zpow_succ x) hscale
  have hfl : ⌊x * 2 ^ (52 - e)⌋ < 9007199254740992 := by
    rw [Int.floor_lt]
    push_cast
    exact hm
  have hq : (roundNearestEvenInt (x * 2 ^ (52 - e)) : ℚ) ≤ (9007199254740992 : ℚ) := by
    have := rne_le_floor_add_one (x * 2 ^ (52 - e))
    exact_mod_cast le_trans this (by omega)
  rw [roundPos, ← he]
  have h2 : (2 : ℚ) ^ (e + 1) = (9007199254740992 : ℚ) / 2 ^ (52 - e) := by
    rw [eq_div_iff hscale.ne']
    exact zpow_split_53 e
  rw [h2]
  exact (div_le_div_iff_of_pos_right hscale).2 hq

theorem roundPos_pos {x : ℚ} (hx : 0 < x) : 0 < roundPos x :=
  lt_of_lt_of_le (zpow_pos (by norm_num) _) (roundPos_lower hx)

theorem roundPos_mono {x y : ℚ} (hx : 0 < x) (hxy : x ≤ y) :
    roundPos x ≤ roundPos y := by
  have hy : 0 < y := lt_of_lt_of_le hx hxy
  have he : Int.log 2 x ≤ Int.log 2 y := Int.log_mono_right hx hxy
  rcases eq_or_lt_of_le he with heq | hlt
  · have hscale : (0 : ℚ) < 2 ^ (52 - Int.log 2 x) := zpow_pos (by norm_num) _
    have hmm : x * 2 ^ (52 - Int.log 2 x) ≤ y * 2 ^ (52 - Int.log 2 x) :=
      mul_le_mul_of_nonneg_right hxy hscale.le
    have hr : (roundNearestEvenInt (x * 2 ^ (52 - Int.log 2 x)) : ℚ) ≤
        (roundNearestEvenInt (y * 2 ^ (52 - Int.log 2 x)) : ℚ) := by
      exact_mod_cast rne_mono hmm
    rw [roundPos, roundPos, ← heq]
    exact (div_le_div_iff_of_pos_right hscale).2 hr
  · have h1 : roundPos x ≤ (2 : ℚ) ^ (Int.log 2 x + 1) := roundPos_upper hx
    have h2 : (2 : ℚ) ^ (Int.log 2 x + 1) ≤ (2 : ℚ) ^ (Int.log 2 y) :=
      zpow_le_zpow_right₀ (by norm_num) (by omega)
    exact le_trans h1 (le_trans h2 (roundPos_lower hy))

theorem roundDouble_zero : roundDouble 0 = 0 := by
  simp [roundDouble]

theorem roundDouble_pos {q : ℚ} (hq : 0 < q) : roundDouble q = roundPos q := by
  rw [roundDouble, if_neg hq.ne', if_pos hq]

theorem roundDouble_of_neg {q : ℚ} (hq : q < 0) :
    roundDouble q = - roundPos (-q) := by
  rw [roundDouble, if_neg hq.ne, if_neg (by linarith)]

theorem roundDouble_mono {x y : ℚ} (h : x ≤ y) :
    roundDouble x ≤ roundDouble y := by
  rcases lt_trichotomy x 0 with hx | hx | hx
  · rcases lt_trichotomy y 0 with hy | hy | hy
    · rw [roundDouble_of_neg hx, roundDouble_of_neg hy, neg_le_neg_iff]
      exact roundPos_mono (by linarith) (by linarith)
    · rw [roundDouble_of_neg hx, hy, roundDouble_zero]
      have := roundPos_pos (x := -x) (by linarith)
      linarith
    · rw [roundDouble_of_neg hx, roundDouble_pos hy]
      have h1 := roundPos_pos (x := -x) (by linarith)
      have h2 := roundPos_pos hy
      linarith
  · rw [hx, roundDouble_zero]
    rcases eq_or_lt_of_le (hx ▸ h) with hy | hy
    · rw [← hy, roundDouble_zero]
    · rw [roundDouble_pos hy]
      exact (roundPos_pos hy).le
  · rw [roundDouble_pos hx, roundDouble_pos (lt_of_lt_of_le hx h)]
    exact roundPos_mono hx h

theorem roundDouble_nonneg {q : ℚ} (h : 0 ≤ q) : 0 ≤ roundDouble q := by
  have := roundDouble_mono h
  rwa [roundDouble_zero] at this

theorem roundDouble_nonpos {q : ℚ} (h : q ≤ 0) : roundDouble q ≤ 0 := by
  have := roundDouble_mono h
  rwa [roundDouble_zero] at this

theorem roundDouble_one : roundDouble 1 = 1 := by
  rw [roundDouble_pos one_pos, roundPos, Int.log_one_right]
  have h1 : (1 : ℚ) * 2 ^ ((52 : ℤ) - 0) = ((4503599627370496 : ℤ) : ℚ) := by
    push_cast
    norm_num
  rw [h1, rne_intCast]
  push_cast
  norm_num

theorem roundDouble_1000 : roundDouble 1000 = 1000 := by
  rw [roundDouble_pos (by norm_num), roundPos,
    int_log2_eq 9 (by norm_num) (by norm_num) (by norm_num)]
  have h1 : (1000 : ℚ) * 2 ^ ((52 : ℤ) - 9) = ((8796093022208000 : ℤ) : ℚ) := by
    push_cast
    norm_num
  rw [h1, rne_intCast]
  push_cast
  norm_num

theorem rne_eval_lt (m : ℚ) (k : ℤ) (hk : ⌊m⌋ = k) (h : m - (k : ℚ) < 1 / 2) :
    roundNearestEvenInt m = k := by
  unfold roundNearestEvenInt
  rw [hk, if_pos h]

theorem rne_eval_gt (m : ℚ) (k : ℤ) (hk : ⌊m⌋ = k) (h : 1 / 2 < m - (k : ℚ)) :
    roundNearestEvenInt m = k + 1 := by
  unfold roundNearestEvenInt
  rw [hk, if_neg (by linarith), if_pos h]

theorem roundDouble_eval_pos (x : ℚ) (e n : ℤ) (hx : 0 < x)
    (h1 : (2 : ℚ) ^ e ≤ x) (h2 : x < (2 : ℚ) ^ (e + 1))
    (hn : roundNearestEvenInt (x * 2 ^ (52 - e)) = n) :
    roundDouble x = (n : ℚ) / 2 ^ (52 - e) := by
  rw [roundDouble_pos hx, roundPos, int_log2_eq e hx h1 h2, hn]

theorem decayScore_eq_of_le (t : ℕ) (h : t ≤ 3000) : decayScore t = 1000 := by
  have : (t : ℚ) ≤ 3 * 1000 := by exact_mod_cast (by omega : t ≤ 3000)
  simp [decayScore, this]

theorem decayScore_eq_of_gt (t : ℕ) (h : 3000 < t) :
    decayScore t = max 0 ⌊fpMul 1000 (fpSub 1 (fpDiv ((t : ℚ) - 3000) 177000))⌋ := by
  have hgt : ¬ ((t : ℚ) ≤ 3 * 1000) := by
    push_neg
    exact_mod_cast (by omega : 3000 < t)
  simp only [decayScore, hgt, if_false]
  norm_num

theorem fpDiv_decay_nonneg {t : ℕ} (h : 3000 < t) :
    0 ≤ fpDiv ((t : ℚ) - 3000) 177000 := by
  apply roundDouble_nonneg
  apply div_nonneg ?_ (by norm_num)
  have : (3000 : ℚ) ≤ (t : ℚ) := by exact_mod_cast h.le
  linarith

theorem fpChain_le_1000 {t : ℕ} (h : 3000 < t) :
    fpMul 1000 (fpSub 1 (fpDiv ((t : ℚ) - 3000) 177000)) ≤ 1000 := by
  have hf := fpDiv_decay_nonneg h
  have hg : fpSub 1 (fpDiv ((t : ℚ) - 3000) 177000) ≤ 1 := by
    have h1 : roundDouble (1 - fpDiv ((t : ℚ) - 3000) 177000) ≤ roundDouble 1 :=
      roundDouble_mono (by linarith)
    rw [roundDouble_one] at h1
    exact h1
  have h2 : roundDouble (1000 * fpSub 1 (fpDiv ((t : ℚ) - 3000) 177000)) ≤
      roundDouble 1000 := roundDouble_mono (by linarith)
  rw [roundDouble_1000] at h2
  exact h2

theorem decayScore_nonneg (t : ℕ) : 0 ≤ decayScore t := by
  rcases le_or_lt t 3000 with h | h
  · rw [decayScore_eq_of_le t h]
    norm_num
  · rw [decayScore_eq_of_gt t h]
    exact le_max_left _ _

theorem decayScore_le_1000 (t : ℕ) : decayScore t ≤ 1000 := by
  rcases le_or_lt t 3000 with h | h
  · rw [decayScore_eq_of_le t h]
  · rw [decayScore_eq_of_gt t h]
    have hfl : ⌊fpMul 1000 (fpSub 1 (fpDiv ((t : ℚ) - 3000) 177000))⌋ ≤ 1000 := by
      have := Int.floor_le_floor (fpChain_le_1000 h)
      simpa using this
    simp only [max_le_iff]
    exact ⟨by norm_num, hfl⟩

theorem decayScore_antitone {t₁ t₂ : ℕ} (h12 : t₁ ≤ t₂) :
    decayScore t₂ ≤ decayScore t₁ := by
  rcases le_or_lt t₂ 3000 with h2 | h2
  · rw [decayScore_eq_of_le t₂ h2, decayScore_eq_of_le t₁ (le_trans h12 h2)]
  · rcases le_or_lt t₁ 3000 with h1 | h1
    · rw [decayScore_eq_of_le t₁ h1]
      exact decayScore_le_1000 t₂
    · rw [decayScore_eq_of_gt t₂ h2, decayScore_eq_of_gt t₁ h1]
      have hx : ((t₁ : ℚ) - 3000) / 177000 ≤ ((t₂ : ℚ) - 3000) / 177000 := by
        have ht : (t₁ : ℚ) ≤ (t₂ : ℚ) := by exact_mod_cast h12
        exact (div_le_div_iff_of_pos_right (by norm_num)).2 (by linarith)
      have hfd : fpDiv ((t₁ : ℚ) - 3000) 177000 ≤ fpDiv ((t₂ : ℚ) - 3000) 177000 :=
        roundDouble_mono hx
      have hfs : fpSub 1 (fpDiv ((t₂ : ℚ) - 3000) 177000) ≤
          fpSub 1 (fpDiv ((t₁ : ℚ) - 3000) 177000) :=
        roundDouble_mono (by linarith)
      have hfm : fpMul 1000 (fpSub 1 (fpDiv ((t₂ : ℚ) - 3000) 177000)) ≤
          fpMul 1000 (fpSub 1 (fpDiv ((t₁ : ℚ) - 3000) 177000)) :=
        roundDouble_mono (by linarith)
      exact max_le_max (le_refl 0) (Int.floor_le_floor hfm)

theorem decayScore_eq_zero_of_ge (t : ℕ) (h : 180000 ≤ t) : decayScore t = 0 := by
  rw [decayScore_eq_of_gt t (by omega)]
  have ht : (180000 : ℚ) ≤ (t : ℚ) := by exact_mod_cast h
  have hx : (1 : ℚ) ≤ ((t : ℚ) - 3000) / 177000 := by
    rw [le_div_iff₀ (by norm_num : (0 : ℚ) < 177000)]
    linarith
  have hf : (1 : ℚ) ≤ fpDiv ((t : ℚ) - 3000) 177000 := by
    rw [fpDiv, ← roundDouble_one]
    exact roundDouble_mono hx
  have hg : fpSub 1 (fpDiv ((t : ℚ) - 3000) 177000) ≤ 0 := by
    rw [fpSub]
    exact roundDouble_nonpos (by linarith)
  have hm : fpMul 1000 (fpSub 1 (fpDiv ((t : ℚ) - 3000) 177000)) ≤ 0 := by
    rw [fpMul]
    exact roundDouble_nonpos (by nlinarith)
  have hfl : ⌊fpMul 1000 (fpSub 1 (fpDiv ((t : ℚ) - 3000) 177000))⌋ ≤ 0 := by
    have := Int.floor_le_floor hm
    simpa using this
  omega

theorem decayScore_144600 : decayScore 144600 = 199 := by
  rw [decayScore_eq_of_gt 144600 (by norm_num),
    show ((144600 : ℕ) : ℚ) = (144600 : ℚ) by norm_num]
  have ha0 : ((144600 : ℚ) - 3000) / 177000 = 4 / 5 := by norm_num
  have ha1 : roundNearestEvenInt ((4 / 5 : ℚ) * 2 ^ ((52 : ℤ) - (-1)))
      = 7205759403792794 := by
    have hm : (4 / 5 : ℚ) * 2 ^ ((52 : ℤ) - (-1)) = 36028797018963968 / 5 := by
      norm_num
    rw [hm]
    have := rne_eval_gt (36028797018963968 / 5 : ℚ) 7205759403792793
      (by norm_num) (by norm_num)
    simpa using this
  have hA : fpDiv ((144600 : ℚ) - 3000) 177000
      = 3602879701896397 / 4503599627370496 := by
    rw [fpDiv, ha0,
      roundDouble_eval_pos (4 / 5 : ℚ) (-1) 7205759403792794 (by norm_num)
        (by norm_num) (by norm_num) ha1]
    norm_num
  rw [hA]
  have hb0 : (1 : ℚ) - 3602879701896397 / 4503599627370496
      = 900719925474099 / 4503599627370496 := by norm_num
  have hb1 : roundNearestEvenInt
      ((900719925474099 / 4503599627370496 : ℚ) * 2 ^ ((52 : ℤ) - (-3)))
      = 7205759403792792 := by
    have hm : (900719925474099 / 4503599627370496 : ℚ) * 2 ^ ((52 : ℤ) - (-3))
        = 7205759403792792 := by norm_num
    rw [hm]
    exact rne_eval_lt _ 7205759403792792 (by norm_num) (by norm_num)
  have hB : fpSub 1 (3602879701896397 / 4503599627370496 : ℚ)
      = 900719925474099 / 4503599627370496 := by
    rw [fpSub, hb0,
      roundDouble_eval_pos (900719925474099 / 4503599627370496 : ℚ) (-3)
        7205759403792792 (by norm_num) (by norm_num) (by norm_num) hb1]
    norm_num
  rw [hB]
  have hc0 : (1000 : ℚ) * (900719925474099 / 4503599627370496)
      = 900719925474099000 / 4503599627370496 := by norm_num
  have hc1 : roundNearestEvenInt
      ((900719925474099000 / 4503599627370496 : ℚ) * 2 ^ ((52 : ℤ) - 7))
      = 7036874417766398 := by
    have hm : (900719925474099000 / 4503599627370496 : ℚ) * 2 ^ ((52 : ℤ) - 7)
        = 900719925474099000 / 128 := by norm_num
    rw [hm]
    exact rne_eval_lt _ 7036874417766398 (by norm_num) (by norm_num)
  have hC : fpMul 1000 (900719925474099 / 4503599627370496 : ℚ)
      = (7036874417766398 : ℚ) / 2 ^ ((52 : ℤ) - 7) := by
    rw [fpMul, hc0]
    exact roundDouble_eval_pos (900719925474099000 / 4503599627370496 : ℚ) 7
      7036874417766398 (by norm_num) (by norm_num) (by norm_num) hc1
  rw [hC]
  norm_num



theorem getD_cons_set_perm (t : List String) (k : ℕ) (a' : String) (hk : k < t.length) :
    (t.getD k "" :: t.set k a').Perm (a' :: t) := by
  induction t generalizing k with
  | nil => simp at hk
  | cons b t ih =>
    cases k with
    | zero => simpa using List.Perm.swap a' b t
    | succ k =>
      have hk' : k < t.length := by simpa using hk
      have h0 : (b :: t).getD (k + 1) "" :: (b :: t).set (k + 1) a'
          = t.getD k "" :: b :: t.set k a' := by
        simp [List.getD_cons_succ, List.set_cons_succ]
      rw [h0]
      refine (List.Perm.swap b (t.getD k "") (t.set k a')).trans ?_
      exact ((ih k hk').cons b).trans (List.Perm.swap a' b t)

theorem swapIdx_perm (l : List String) (i j : ℕ) (hi : i < l.length) (hj : j < l.length) :
    (swapIdx l i j).Perm l := by
  induction l generalizing i j with
  | nil => simp at hi
  | cons a t ih =>
    cases i with
    | zero =>
      cases j with
      | zero => simp [swapIdx]
      | succ k =>
        have hk : k < t.length := by simpa using hj
        have h0 : swapIdx (a :: t) 0 (k + 1) = t.getD k "" :: t.set k a := by
          simp [swapIdx, List.getD_cons_succ, List.set_cons_succ]
        rw [h0]
        exact getD_cons_set_perm t k a hk
    | succ i' =>
      cases j with
      | zero =>
        have hi' : i' < t.length := by simpa using hi
        have h0 : swapIdx (a :: t) (i' + 1) 0 = t.getD i' "" :: t.set i' a := by
          simp [swapIdx, List.getD_cons_succ, List.set_cons_succ]
        rw [h0]
        exact getD_cons_set_perm t i' a hi'
      | succ j' =>
        have hi' : i' < t.length := by simpa using hi
        have hj' : j' < t.length := by simpa using hj
        have h0 : swapIdx (a :: t) (i' + 1) (j' + 1) = a :: swapIdx t i' j' := by
          simp [swapIdx, List.getD_cons_succ, List.set_cons_succ]
        rw [h0]
        exact (ih i' j' hi' hj').cons a

theorem swapIdx_length (l : List String) (i j : ℕ) :
    (swapIdx l i j).length = l.length := by
  simp [swapIdx]

theorem shuffleAux_perm (rand : ℕ → ℕ) (l : List String) (i : ℕ) (hi : i < l.length) :
    (shuffleAux rand l i).Perm l := by
  induction i generalizing l with
  | zero => simp [shuffleAux]
  | succ i ih =>
    have hlen : (swapIdx l (i + 1) (rand (i + 1) % (i + 2))).length = l.length :=
      swapIdx_length l _ _
    have hj : rand (i + 1) % (i + 2) < l.length :=
      lt_of_lt_of_le (Nat.mod_lt _ (by omega)) (by omega)
    have hswap := swapIdx_perm l (i + 1) (rand (i + 1) % (i + 2)) hi hj
    have hrec := ih (swapIdx l (i + 1) (rand (i + 1) % (i + 2))) (by omega)
    exact hrec.trans hswap

theorem shuffleArray_perm (rand : ℕ → ℕ) (array : List String) :
    (shuffleArray rand array).Perm array := by
  cases array with
  | nil => simp [shuffleArray, shuffleAux]
  | cons a t =>
    exact shuffleAux_perm rand (a :: t) ((a :: t).length - 1) (by simp)

theorem mem_buildPool (studentList : List String) (profiles : List StudentProfile)
    (x : String) : x ∈ buildPool studentList profiles ↔ x ∈ studentList := by
  simp only [buildPool, List.mem_flatMap]
  constructor
  · rintro ⟨a, ha, hx⟩
    split at hx <;> simp_all
  · intro hx
    refine ⟨x, hx, ?_⟩
    split <;> simp

theorem count_buildPool (studentList : List String) (profiles : List StudentProfile)
    (hnd : studentList.Nodup) (s : String) (hs : s ∈ studentList) :
    (buildPool studentList profiles).count s =
      if isFlagged profiles s then 4 else 1 := by
  induction studentList with
  | nil => simp at hs
  | cons a rest ih =>
    have hnd' : rest.Nodup := (List.nodup_cons.mp hnd).2
    have hna : a ∉ rest := (List.nodup_cons.mp hnd).1
    have hsplit : buildPool (a :: rest) profiles =
        (if isFlagged profiles a then [a, a, a, a] else [a]) ++ buildPool rest profiles := by
      simp [buildPool]
    rcases List.mem_cons.mp hs with rfl | hs'
    · have hzero : (buildPool rest profiles).count s = 0 := by
        rw [List.count_eq_zero]
        intro hmem
        exact hna ((mem_buildPool rest profiles s).mp hmem)
      rw [hsplit, List.count_append, hzero]
      split <;> simp
    · have hne : s ≠ a := fun h => hna (h ▸ hs')
      have hzero : (if isFlagged profiles a then [a, a, a, a] else [a]).count s = 0 := by
        rw [List.count_eq_zero]
        intro hmem
        split at hmem <;> simp_all
      rw [hsplit, List.count_append, hzero, Nat.zero_add]
      exact ih hnd' hs'

theorem length_buildPool (studentList : List String) (profiles : List StudentProfile) :
    (buildPool studentList profiles).length =
      studentList.length +
        3 * (studentList.filter (fun s => isFlagged profiles s)).length := by
  induction studentList with
  | nil => simp [buildPool]
  | cons a rest ih =>
    have hsplit : buildPool (a :: rest) profiles =
        (if isFlagged profiles a then [a, a, a, a] else [a]) ++ buildPool rest profiles := by
      simp [buildPool]
    rw [hsplit, List.length_append, ih, List.filter_cons]
    by_cases h : isFlagged profiles a <;> simp [h] <;> omega

theorem lookupScore_bumpScore (acc : List (String × ℤ)) (name : String) (pts : ℤ)
    (n : String) :
    lookupScore (bumpScore acc name pts) n =
      if n = name then some ((lookupScore acc name).getD 0 + pts)
      else lookupScore acc n := by
  induction acc with
  | nil =>
    by_cases h : n = name
    · simp [bumpScore, lookupScore, h]
    · have hne : (name == n) = false := by simpa using Ne.symm h
      simp [bumpScore, lookupScore, h, hne]
  | cons q rest ih =>
    obtain ⟨qn, qv⟩ := q
    by_cases hq : qn = name
    · subst hq
      by_cases h : n = qn
      · subst h
        simp [bumpScore, lookupScore]
      · have hqn : (qn == n) = false := by simpa using Ne.symm h
        simp [bumpScore, lookupScore, List.find?_cons, hqn, h]
    · have hq' : (qn == name) = false := by simpa using hq
      by_cases h : n = name
      · subst h
        have hqn : (qn == n) = false := by simpa using hq
        simp only [bumpScore, hq', Bool.false_eq_true, if_false, lookupScore,
          List.find?_cons, hqn]
        simpa [lookupScore] using ih
      · by_cases h2 : qn = n
        · subst h2
          simp [bumpScore, hq', lookupScore, h]
        · have hqn : (qn == n) = false := by simpa using h2
          simp only [bumpScore, hq', Bool.false_eq_true, if_false, lookupScore,
            List.find?_cons, hqn]
          simpa [lookupScore, h] using ih

theorem keys_bumpScore_of_some (acc : List (String × ℤ)) (name : String) (pts : ℤ)
    (h : (lookupScore acc name).isSome) :
    (bumpScore acc name pts).map Prod.fst = acc.map Prod.fst := by
  induction acc with
  | nil => simp [lookupScore] at h
  | cons q rest ih =>
    obtain ⟨qn, qv⟩ := q
    by_cases hq : qn = name
    · subst hq
      simp [bumpScore]
    · have hq' : (qn == name) = false := by simpa using hq
      have h' : (lookupScore rest name).isSome := by
        simpa [lookupScore, List.find?_cons, hq'] using h
      simp only [bumpScore, hq', Bool.false_eq_true, if_false, List.map_cons]
      rw [ih h']

theorem keys_bumpScore_of_none (acc : List (String × ℤ)) (name : String) (pts : ℤ)
    (h : lookupScore acc name = none) :
    (bumpScore acc name pts).map Prod.fst = acc.map Prod.fst ++ [name] := by
  induction acc with
  | nil => simp [bumpScore]
  | cons q rest ih =>
    obtain ⟨qn, qv⟩ := q
    by_cases hq : qn = name
    · subst hq
      simp [lookupScore, List.find?_cons] at h
    · have hq' : (qn == name) = false := by simpa using hq
      have h' : lookupScore rest name = none := by
        simpa [lookupScore, List.find?_cons, hq'] using h
      simp only [bumpScore, hq', Bool.false_eq_true, if_false, List.map_cons]
      rw [ih h']
      simp

theorem lookupScore_isSome (acc : List (String × ℤ)) (name : String) :
    (lookupScore acc name).isSome ↔ name ∈ acc.map Prod.fst := by
  induction acc with
  | nil => simp [lookupScore]
  | cons q rest ih =>
    obtain ⟨qn, qv⟩ := q
    by_cases hq : qn = name
    · subst hq
      simp [lookupScore, List.find?_cons]
    · have hq' : (qn == name) = false := by simpa using hq
      simp only [lookupScore, List.find?_cons, hq', List.map_cons, List.mem_cons]
      constructor
      · intro h
        exact Or.inr ((ih).mp (by simpa [lookupScore] using h))
      · rintro (h | h)
        · exact absurd h.symm hq
        · simpa [lookupScore] using (ih).mpr h

theorem keysNodup_bumpScore (acc : List (String × ℤ)) (name : String) (pts : ℤ)
    (h : (acc.map Prod.fst).Nodup) :
    ((bumpScore acc name pts).map Prod.fst).Nodup := by
  rcases hs : lookupScore acc name with _ | v
  · rw [keys_bumpScore_of_none acc name pts hs]
    have : name ∉ acc.map Prod.fst := by
      rw [← lookupScore_isSome]
      simp [hs]
    simp [List.nodup_append, this, h]
  · rw [keys_bumpScore_of_some acc name pts (by simp [hs])]
    exact h

theorem sumPoints_cons (name : String) (r : ParticipationRecord)
    (rs : List ParticipationRecord) :
    sumPoints name (r :: rs) =
      (if r.studentName = name then points r else 0) + sumPoints name rs := by
  by_cases h : r.studentName = name
  · simp [sumPoints, List.filter_cons, h]
  · have h' : (r.studentName == name) = false := by simpa using h
    simp [sumPoints, List.filter_cons, h', h]

theorem lookupScore_foldl_of_tracked (rs : List ParticipationRecord)
    (acc : List (String × ℤ)) (n : String)
    (h : n ∈ rs.map (fun r => r.studentName) ∨ (lookupScore acc n).isSome) :
    lookupScore (rs.foldl (fun acc r => bumpScore acc r.studentName (points r)) acc) n =
      some ((lookupScore acc n).getD 0 + sumPoints n rs) := by
  induction rs generalizing acc with
  | nil =>
    rcases h with h | h
    · simp at h
    · rcases hs : lookupScore acc n with _ | v
      · simp [hs] at h
      · simp [lookupScore] at hs ⊢
        simp [hs, sumPoints]
  | cons r rest ih =>
    simp only [List.foldl_cons]
    by_cases hn : r.studentName = n
    · have hlk : lookupScore (bumpScore acc r.studentName (points r)) n =
          some ((lookupScore acc n).getD 0 + points r) := by
        rw [lookupScore_bumpScore, if_pos hn.symm, hn]
      rw [ih _ (Or.inr (by simp [hlk])), hlk, sumPoints_cons, hn]
      simp [add_assoc]
    · have hlk : lookupScore (bumpScore acc r.studentName (points r)) n =
          lookupScore acc n := by
        rw [lookupScore_bumpScore, if_neg (fun h => hn h.symm)]
      have h' : n ∈ rest.map (fun r => r.studentName) ∨
          (lookupScore (bumpScore acc r.studentName (points r)) n).isSome := by
        rcases h with h | h
        · rcases List.mem_map.mp h with ⟨r', hr', hrn⟩
          rcases List.mem_cons.mp hr' with rfl | hr''
          · exact absurd hrn hn
          · exact Or.inl (List.mem_map.mpr ⟨r', hr'', hrn⟩)
        · exact Or.inr (by simpa [hlk] using h)
      rw [ih _ h', hlk, sumPoints_cons]
      simp [hn]

theorem lookupScore_foldl_of_untracked (rs : List ParticipationRecord)
    (acc : List (String × ℤ)) (n : String)
    (h1 : n ∉ rs.map (fun r => r.studentName)) (h2 : lookupScore acc n = none) :
    lookupScore (rs.foldl (fun acc r => bumpScore acc r.studentName (points r)) acc) n
      = none := by
  induction rs generalizing acc with
  | nil => simpa using h2
  | cons r rest ih =>
    simp only [List.foldl_cons]
    have hn : r.studentName ≠ n := by
      intro h
      exact h1 (by simp [← h])
    have hlk : lookupScore (bumpScore acc r.studentName (points r)) n =
        lookupScore acc n := by
      rw [lookupScore_bumpScore, if_neg (fun h => hn h.symm)]
    have h1' : n ∉ rest.map (fun r => r.studentName) := by
      intro hmem
      exact h1 (by simp only [List.map_cons, List.mem_cons]; exact Or.inr hmem)
    exact ih _ h1' (hlk.trans h2)

theorem lookupScore_tally_of_mem (rs : List ParticipationRecord) (n : String)
    (h : n ∈ rs.map (fun r => r.studentName)) :
    lookupScore (tally rs) n = some (sumPoints n rs) := by
  rw [tally, lookupScore_foldl_of_tracked rs [] n (Or.inl h)]
  simp [lookupScore]

theorem lookupScore_tally_of_not_mem (rs : List ParticipationRecord) (n : String)
    (h : n ∉ rs.map (fun r => r.studentName)) :
    lookupScore (tally rs) n = none :=
  lookupScore_foldl_of_untracked rs [] n h (by simp [lookupScore])

theorem keysNodup_tally (rs : List ParticipationRecord) :
    ((tally rs).map Prod.fst).Nodup := by
  rw [tally]
  have : ∀ (acc : List (String × ℤ)), (acc.map Prod.fst).Nodup →
      ((rs.foldl (fun acc r => bumpScore acc r.studentName (points r)) acc).map
        Prod.fst).Nodup := by
    induction rs with
    | nil => intro acc h; simpa using h
    | cons r rest ih =>
      intro acc h
      simp only [List.foldl_cons]
      exact ih _ (keysNodup_bumpScore acc r.studentName (points r) h)
  exact this [] (by simp)

theorem lookupScore_eq_some_of_mem (acc : List (String × ℤ)) (n : String) (v : ℤ)
    (hnd : (acc.map Prod.fst).Nodup) (h : (n, v) ∈ acc) :
    lookupScore acc n = some v := by
  induction acc with
  | nil => simp at h
  | cons q rest ih =>
    obtain ⟨qn, qv⟩ := q
    rcases List.mem_cons.mp h with h1 | h1
    · obtain ⟨rfl, rfl⟩ := Prod.mk.injEq .. ▸ h1
      simp_all [lookupScore, List.find?_cons]
    · have hq : qn ≠ n := by
        rintro rfl
        have : qn ∈ rest.map Prod.fst := List.mem_map.mpr ⟨(qn, v), h1, rfl⟩
        simp [List.nodup_cons, this] at hnd
      have hq' : (qn == n) = false := by simpa using hq
      simp only [lookupScore, List.find?_cons, hq']
      exact ih (by simpa using (List.nodup_cons.mp (by simpa using hnd)).2) h1

theorem mem_of_lookupScore_eq_some (acc : List (String × ℤ)) (n : String) (v : ℤ)
    (h : lookupScore acc n = some v) : (n, v) ∈ acc := by
  rcases hf : acc.find? (fun p => p.1 == n) with _ | p
  · simp [lookupScore, hf] at h
  · have hmem := List.mem_of_find?_eq_some hf
    have hpred := List.find?_some hf
    have h1 : p.1 = n := by simpa using hpred
    have h2 : p.2 = v := by simpa [lookupScore, hf] using h
    have : p = (n, v) := Prod.ext h1 h2
    exact this ▸ hmem

theorem mem_tally_iff (rs : List ParticipationRecord) (n : String) (v : ℤ) :
    (n, v) ∈ tally rs ↔
      n ∈ rs.map (fun r => r.studentName) ∧ v = sumPoints n rs := by
  constructor
  · intro h
    have hlk := lookupScore_eq_some_of_mem (tally rs) n v (keysNodup_tally rs) h
    by_cases hm : n ∈ rs.map (fun r => r.studentName)
    · refine ⟨hm, ?_⟩
      rw [lookupScore_tally_of_mem rs n hm] at hlk
      exact (Option.some.injEq .. ▸ hlk).symm
    · rw [lookupScore_tally_of_not_mem rs n hm] at hlk
      simp at hlk
  · rintro ⟨hm, rfl⟩
    exact mem_of_lookupScore_eq_some _ _ _ (lookupScore_tally_of_mem rs n hm)

theorem insertDesc_perm (p : String × ℤ) (l : List (String × ℤ)) :
    (insertDesc p l).Perm (p :: l) := by
  induction l with
  | nil => simp [insertDesc]
  | cons q rest ih =>
    by_cases h : q.2 ≤ p.2
    · simp [insertDesc, h]
    · simp only [insertDesc, h, if_false]
      exact (ih.cons q).trans (List.Perm.swap p q rest)

theorem sortDesc_perm (l : List (String × ℤ)) : (sortDesc l).Perm l := by
  induction l with
  | nil => simp [sortDesc]
  | cons p rest ih =>
    have : sortDesc (p :: rest) = insertDesc p (sortDesc rest) := rfl
    rw [this]
    exact (insertDesc_perm p (sortDesc rest)).trans (ih.cons p)

theorem sorted_insertDesc (p : String × ℤ) (l : List (String × ℤ))
    (h : l.Sorted (fun a b => b.2 ≤ a.2)) :
    (insertDesc p l).Sorted (fun a b => b.2 ≤ a.2) := by
  induction l with
  | nil => simp [insertDesc]
  | cons q rest ih =>
    rcases List.sorted_cons.mp h with ⟨hq, hrest⟩
    by_cases hle : q.2 ≤ p.2
    · simp only [insertDesc, hle, if_true]
      refine List.sorted_cons.mpr ⟨?_, h⟩
      intro b hb
      rcases List.mem_cons.mp hb with rfl | hb'
      · exact hle
      · exact le_trans (hq b hb') hle
    · simp only [insertDesc, hle, if_false]
      refine List.sorted_cons.mpr ⟨?_, ih hrest⟩
      intro b hb
      have hb' : b = p ∨ b ∈ rest :=
        List.mem_cons.mp ((insertDesc_perm p rest).mem_iff.mp hb)
      rcases hb' with rfl | hb''
      · omega
      · exact hq b hb''

theorem sorted_sortDesc (l : List (String × ℤ)) :
    (sortDesc l).Sorted (fun a b => b.2 ≤ a.2) := by
  induction l with
  | nil => simp [sortDesc]
  | cons p rest ih => exact sorted_insertDesc p (sortDesc rest) ih

/-! Claim theorems. -/

/-- Claim C1: for every roster of N student names and every profile lookup,
the generated pool (resetPicker) contains exactly N + 3K entries where K is
the number of students whose profile has isSpecialNeeds true; each flagged
student appears exactly 4 times and each unflagged student (including
students with no profile) exactly once; and the shuffled result is a
multiset permutation of that weighted multiset. -/
theorem resetPicker_pool_weighting (roster : List String)
    (profiles : List StudentProfile) (rand : ℕ → ℕ) (hnd : roster.Nodup) :
    (buildPool roster profiles).length =
        roster.length + 3 * (roster.filter (fun s => isFlagged profiles s)).length ∧
    (∀ s ∈ roster,
      (buildPool roster profiles).count s = if isFlagged profiles s then 4 else 1) ∧
    (shuffleArray rand (buildPool roster profiles)).Perm (buildPool roster profiles) :=
  ⟨length_buildPool roster profiles,
   fun s hs => count_buildPool roster profiles hnd s hs,
   shuffleArray_perm rand (buildPool roster profiles)⟩

/-- Witness for C1 at the concrete roster ["Amy", "Bo"] with Bo flagged. -/
theorem resetPicker_pool_weighting_witness :
    demoRoster.Nodup ∧
    (buildPool demoRoster demoProfiles).length =
      demoRoster.length +
        3 * (demoRoster.filter (fun s => isFlagged demoProfiles s)).length ∧
    (buildPool demoRoster demoProfiles).count "Bo" = 4 ∧
    (buildPool demoRoster demoProfiles).count "Amy" = 1 ∧
    (shuffleArray (fun _ => 0) (buildPool demoRoster demoProfiles)).Perm
      (buildPool demoRoster demoProfiles) := by
  have h := resetPicker_pool_weighting demoRoster demoProfiles (fun _ => 0) (by decide)
  refine ⟨by decide, h.1, ?_, ?_, h.2.2⟩
  · have hb := h.2.1 "Bo" (by decide)
    rwa [if_pos (show isFlagged demoProfiles "Bo" = true by decide)] at hb
  · have ha := h.2.1 "Amy" (by decide)
    rwa [if_neg (show ¬ isFlagged demoProfiles "Amy" = true by decide)] at ha

/-- Claim C2 counterexample: the program computes the decay formula in
binary64 doubles, and at the reachable 100ms tick msElapsed = 144600 the
rounded evaluation floors to 199 while the claimed exact formula
max(0, floor(1000 × (1 − (t − 3000) / 177000))) gives 200, so the claim's
formula equality is false of the program. -/
theorem decayScore_formula_counterexample :
    decayScore 144600 = 199 ∧
    max 0 ⌊(1000 * (1 - ((144600 : ℚ) - 3000) / 177000) : ℚ)⌋ = 200 ∧
    decayScore 144600 ≠
      max 0 ⌊(1000 * (1 - ((144600 : ℚ) - 3000) / 177000) : ℚ)⌋ := by
  have h1 : decayScore 144600 = 199 := decayScore_144600
  have h2 : max 0 ⌊(1000 * (1 - ((144600 : ℚ) - 3000) / 177000) : ℚ)⌋ = 200 := by
    norm_num
  exact ⟨h1, h2, by rw [h1, h2]; norm_num⟩

/-- Claim C2 (amended): with the timer started, the live decay score equals
1000 for every elapsed time in [0, 3000] ms; for t > 3000 it equals
max(0, floor(d)) where d is the double-precision (binary64
round-to-nearest-even) evaluation of 1000 × (1 − (t − 3000) / 177000),
which can land one below the exact rational value; it still decreases
monotonically on [3000, 180000] with score 1000 at 3000 ms, equals 0 for
every t ≥ 180000, and is always a non-negative integer. -/
theorem decayScore_spec :
    (∀ t : ℕ, t ≤ 3000 → decayScore t = 1000) ∧
    (∀ t : ℕ, 3000 < t →
      decayScore t = max 0 ⌊fpMul 1000 (fpSub 1 (fpDiv ((t : ℚ) - 3000) 177000))⌋) ∧
    (∀ t₁ t₂ : ℕ, 3000 ≤ t₁ → t₁ ≤ t₂ → t₂ ≤ 180000 →
      decayScore t₂ ≤ decayScore t₁) ∧
    decayScore 3000 = 1000 ∧
    (∀ t : ℕ, 180000 ≤ t → decayScore t = 0) ∧
    (∀ t : ℕ, 0 ≤ decayScore t) :=
  ⟨decayScore_eq_of_le,
   decayScore_eq_of_gt,
   fun _ _ _ h12 _ => decayScore_antitone h12,
   decayScore_eq_of_le 3000 le_rfl,
   decayScore_eq_zero_of_ge,
   decayScore_nonneg⟩

/-- Witness for C2 (amended) at concrete elapsed times. -/
theorem decayScore_spec_witness :
    decayScore 2000 = 1000 ∧
    decayScore 4000 =
      max 0 ⌊fpMul 1000 (fpSub 1 (fpDiv ((4000 : ℚ) - 3000) 177000))⌋ ∧
    decayScore 93000 ≤ decayScore 50000 ∧
    decayScore 3000 = 1000 ∧
    decayScore 200000 = 0 ∧
    0 ≤ decayScore 100 :=
  ⟨decayScore_spec.1 2000 (by norm_num),
   decayScore_spec.2.1 4000 (by norm_num),
   decayScore_spec.2.2.1 50000 93000 (by norm_num) (by norm_num) (by norm_num),
   decayScore_spec.2.2.2.1,
   decayScore_spec.2.2.2.2.1 200000 (by norm_num),
   decayScore_spec.2.2.2.2.2 100⟩

/-- Claim C4: a resolution with isCorrect false appends a record whose
score is 0, regardless of the elapsed time and of the live score passed to
the logger; and the invariant that every ledger record with isCorrect false
has score 0 is preserved by such an append. -/
theorem incorrect_resolution_score_zero (records : List ParticipationRecord)
    (s : SessionInfo) (id studentName : String) (timestamp : ℤ)
    (durationSeconds : ℚ) (score : ℤ)
    (hmem : ∀ r ∈ records, r.isCorrect = some false → r.score = some 0) :
    (mkLoggedRecord s id studentName timestamp durationSeconds false score).score
      = some 0 ∧
    (∀ r ∈ logParticipation records s id studentName timestamp durationSeconds
        false score, r.isCorrect = some false → r.score = some 0) := by
  constructor
  · rfl
  · intro r hr hrc
    simp only [logParticipation, List.mem_append, List.mem_singleton] at hr
    rcases hr with h | h
    · exact hmem r h hrc
    · subst h
      rfl

/-- Witness for C4: an incorrect resolution logged with live points 880
still stores score 0. -/
theorem incorrect_resolution_score_zero_witness :
    (mkLoggedRecord demoSession "id2" "Amy" 0 2 false 880).score = some 0 :=
  (incorrect_resolution_score_zero [] demoSession "id2" "Amy" 0 2 880
    (by simp)).1

/-- Claim C5: resolving correct at a live score s in [0, 1000] awards
s + floor(s × 0.10), the bonus being the integer truncation of 10% of s
(equal to s / 10 for non-negative s). -/
theorem correct_resolution_bonus (s : ℤ) (_h0 : 0 ≤ s) (_h1 : s ≤ 1000) :
    handleCorrectBonus s = s / 10 ∧
    handleCorrectTotal s = s + s / 10 ∧
    resolvedPoints s true = s + s / 10 := by
  refine ⟨handleCorrectBonus_eq_ediv s, ?_, ?_⟩
  · rw [handleCorrectTotal, handleCorrectBonus_eq_ediv s]
  · rw [resolvedPoints, if_pos rfl, handleCorrectTotal, handleCorrectBonus_eq_ediv s]

/-- Witness for C5: live score 800 yields bonus 80 and total 880. -/
theorem correct_resolution_bonus_witness :
    (0 : ℤ) ≤ 800 ∧ (800 : ℤ) ≤ 1000 ∧
    handleCorrectBonus 800 = 80 ∧ handleCorrectTotal 800 = 880 := by
  have h := correct_resolution_bonus 800 (by norm_num) (by norm_num)
  refine ⟨by norm_num, by norm_num, ?_, ?_⟩
  · rw [h.1]
    decide
  · rw [h.2.1]
    decide

/-- Claim C3: the leaderboard includes exactly the records whose date and
grade equal the session's, whose period is numerically equal and whose
isCorrect is true; it sums score per studentName (a record with score
undefined counts as 1 point) and returns (name, total) pairs sorted by
total descending; a record with matching date and grade but a different
period never contributes. -/
theorem leaderboardData_spec (records : List ParticipationRecord) (s : SessionInfo) :
    (leaderboardData records s).Sorted (fun a b => b.2 ≤ a.2) ∧
    (∀ name total, (name, total) ∈ leaderboardData records s ↔
      ((∃ r ∈ records, recMatchesSession s r = true ∧ r.studentName = name) ∧
        total = sumPoints name (records.filter (recMatchesSession s)))) ∧
    (∀ r, recMatchesSession s r = true ↔
      (r.date = s.date ∧ r.grade = s.grade ∧ r.period = s.period ∧
        r.isCorrect.getD false = true)) ∧
    (∀ r, r.score = none → points r = 1) ∧
    leaderboardData records s =
      leaderboardData (records.filter (fun r => r.period == s.period)) s := by
  refine ⟨sorted_sortDesc _, ?_, ?_, ?_, ?_⟩
  · intro name total
    rw [leaderboardData,
      (sortDesc_perm (tally (records.filter (recMatchesSession s)))).mem_iff,
      mem_tally_iff]
    constructor
    · rintro ⟨hm, rfl⟩
      rcases List.mem_map.mp hm with ⟨r, hr, hrn⟩
      rcases List.mem_filter.mp hr with ⟨hr1, hr2⟩
      exact ⟨⟨r, hr1, hr2, hrn⟩, rfl⟩
    · rintro ⟨⟨r, hr1, hr2, hrn⟩, rfl⟩
      exact ⟨List.mem_map.mpr ⟨r, List.mem_filter.mpr ⟨hr1, hr2⟩, hrn⟩, rfl⟩
  · intro r
    simp [recMatchesSession, Bool.and_eq_true, beq_iff_eq, and_assoc]
  · intro r hr
    simp [points, hr]
  · have hfilters : records.filter (recMatchesSession s) =
        (records.filter (fun r => r.period == s.period)).filter
          (recMatchesSession s) := by
      rw [List.filter_filter]
      apply List.filter_congr
      intro a _
      cases hm : recMatchesSession s a
      · simp
      · have hp : (a.period == s.period) = true := by
          have h2 := hm
          simp only [recMatchesSession, Bool.and_eq_true] at h2
          exact h2.1.2
        simp [hp]
    rw [leaderboardData, leaderboardData, ← hfilters]

/-- Witness for C3: with one matching record worth 100 and one record in
another period, the leaderboard contains exactly Amy with 100 points. -/
theorem leaderboardData_spec_witness :
    ("Amy", (100 : ℤ)) ∈
      leaderboardData [demoRecordMatch, demoRecordOtherPeriod] demoSession :=
  ((leaderboardData_spec [demoRecordMatch, demoRecordOtherPeriod]
      demoSession).2.1 "Amy" 100).mpr
    ⟨⟨demoRecordMatch, by simp, by decide, rfl⟩, by decide⟩

/-- Claim C6 counterexample: calling pickStudent on an empty pool at the
concrete roster ["Amy"] regenerates the pool but does not pop an element in
the same call — the active student stays unset and the pool keeps all
regenerated entries rather than shrinking by one. -/
theorem pickStudent_emptyPool_counterexample :
    ¬ ((pickStudent emptyPoolState ["Amy"] [] (fun _ => 0)).activeStudent.isSome
          = true ∧
       (pickStudent emptyPoolState ["Amy"] [] (fun _ => 0)).remainingPool.length =
         (buildPool ["Amy"] []).length - 1) := by
  decide

/-- Claim C6 (amended): a draw on an empty pool regenerates the weighted
shuffled pool and clears the active student without popping in that call
(the picker is never left unusable — the next draw pops); a draw on a
non-empty pool pops exactly the first element, sets it active, and shrinks
the pool by exactly one. -/
theorem pickStudent_spec (st : PickerState) (roster : List String)
    (profiles : List StudentProfile) (rand : ℕ → ℕ) :
    (st.remainingPool = [] →
      (pickStudent st roster profiles rand).remainingPool.Perm
        (buildPool roster profiles) ∧
      (pickStudent st roster profiles rand).activeStudent = none ∧
      (pickStudent st roster profiles rand).remainingPool.length =
        (buildPool roster profiles).length) ∧
    (∀ x xs, st.remainingPool = x :: xs →
      (pickStudent st roster profiles rand).activeStudent = some x ∧
      (pickStudent st roster profiles rand).remainingPool = xs ∧
      (pickStudent st roster profiles rand).remainingPool.length + 1 =
        st.remainingPool.length) := by
  constructor
  · intro hempty
    have hcond : st.remainingPool.length = 0 := by simp [hempty]
    have hperm : (shuffleArray rand (buildPool roster profiles)).Perm
        (buildPool roster profiles) := shuffleArray_perm _ _
    refine ⟨?_, ?_, ?_⟩ <;>
      simp [pickStudent, hcond, resetPicker, hperm, hperm.length_eq]
  · intro x xs hpool
    have hcond : ¬ st.remainingPool.length = 0 := by simp [hpool]
    refine ⟨?_, ?_, ?_⟩ <;> simp [pickStudent, hcond, hpool]

/-- Witness for C6 (amended) at concrete picker states. -/
theorem pickStudent_spec_witness :
    (pickStudent emptyPoolState ["Amy"] [] (fun _ => 0)).remainingPool.Perm
      (buildPool ["Amy"] []) ∧
    (pickStudent twoPoolState demoRoster demoProfiles (fun _ => 0)).activeStudent
      = some "Bo" ∧
    (pickStudent twoPoolState demoRoster demoProfiles (fun _ => 0)).remainingPool
      = ["Amy"] :=
  ⟨((pickStudent_spec emptyPoolState ["Amy"] [] (fun _ => 0)).1 rfl).1,
   ((pickStudent_spec twoPoolState demoRoster demoProfiles (fun _ => 0)).2
      "Bo" ["Amy"] rfl).1,
   ((pickStudent_spec twoPoolState demoRoster demoProfiles (fun _ => 0)).2
      "Bo" ["Amy"] rfl).2.1⟩

/-- Claim C7: the bulk session reset removes exactly the records matching
the session triple (date, grade, numeric period), leaves every record of
any other session unchanged, and afterwards the leaderboard for that exact
triple is empty. -/
theorem handleResetLeaderboard_spec (records : List ParticipationRecord)
    (s : SessionInfo) :
    (∀ r, r ∈ handleResetLeaderboard records s ↔
      (r ∈ records ∧ ¬(r.date = s.date ∧ r.grade = s.grade ∧ r.period = s.period))) ∧
    (∀ r, ¬(r.date = s.date ∧ r.grade = s.grade ∧ r.period = s.period) →
      (handleResetLeaderboard records s).count r = records.count r) ∧
    leaderboardData (handleResetLeaderboard records s) s = [] := by
  have hpred : ∀ r : ParticipationRecord,
      ((!(r.date == s.date) || !(r.grade == s.grade) || !(r.period == s.period))
          = true) ↔
      ¬(r.date = s.date ∧ r.grade = s.grade ∧ r.period = s.period) := by
    intro r
    simp only [Bool.or_eq_true, Bool.not_eq_true', beq_eq_false_iff_ne, ne_eq,
      not_and_or]
    tauto
  refine ⟨?_, ?_, ?_⟩
  · intro r
    rw [handleResetLeaderboard, List.mem_filter, hpred r]
  · intro r hr
    rw [handleResetLeaderboard]
    exact List.count_filter ((hpred r).mpr hr)
  · have hnil : (handleResetLeaderboard records s).filter (recMatchesSession s)
        = [] := by
      rw [List.filter_eq_nil_iff]
      intro r hr hm
      have hr2 := (List.mem_filter.mp (by rwa [handleResetLeaderboard] at hr)).2
      have h3 := (hpred r).mp hr2
      simp only [recMatchesSession, Bool.and_eq_true, beq_iff_eq] at hm
      exact h3 ⟨hm.1.1.1, hm.1.1.2, hm.1.2⟩
    rw [leaderboardData, hnil]
    rfl

/-- Witness for C7: resetting the demo session empties its leaderboard and
keeps the other-period record's multiplicity intact. -/
theorem handleResetLeaderboard_spec_witness :
    leaderboardData
      (handleResetLeaderboard [demoRecordMatch, demoRecordOtherPeriod] demoSession)
      demoSession = [] ∧
    (handleResetLeaderboard [demoRecordMatch, demoRecordOtherPeriod]
        demoSession).count demoRecordOtherPeriod =
      ([demoRecordMatch, demoRecordOtherPeriod] : List ParticipationRecord).count
        demoRecordOtherPeriod :=
  ⟨(handleResetLeaderboard_spec [demoRecordMatch, demoRecordOtherPeriod]
      demoSession).2.2,
   (handleResetLeaderboard_spec [demoRecordMatch, demoRecordOtherPeriod]
      demoSession).2.1 demoRecordOtherPeriod (by decide)⟩

/-- Claim C8: reading the participation records from a stored string that
is not valid JSON (for example the literal "\x7bnot valid json") returns
the empty sequence via the fallback, and a missing (null) entry likewise
returns the fallback; the read never throws (it is a total function). -/
theorem storage_parse_fallback :
    (∀ str e, jsonParse str = .error e →
      getParticipationRecordsFromStorage (some str) = Json.arr []) ∧
    getParticipationRecordsFromStorage none = Json.arr [] ∧
    getParticipationRecordsFromStorage (some "\x7bnot valid json") = Json.arr [] := by
  refine ⟨?_, rfl, rfl⟩
  intro str e h
  by_cases hs : str = ""
  · simp [getParticipationRecordsFromStorage, safeJSONParse, hs]
  · simp [getParticipationRecordsFromStorage, safeJSONParse, hs, h]

/-- Witness for C8 at the concrete malformed string. -/
theorem storage_parse_fallback_witness :
    getParticipationRecordsFromStorage (some "\x7bnot valid json") = Json.arr [] :=
  storage_parse_fallback.1 "\x7bnot valid json"
    "expected property name in JSON object" rfl

/-- Claim C9: a date input whose UTC weekday is 5 or 6 (Friday or Saturday)
is rejected with the inline error message and leaves the stored date and
day unchanged; any other date is stored together with its derived weekday
name and clears the error. -/
theorem handleDateChange_spec (st : SetupState) (newDateStr : String)
    (y m d : ℕ) (hparse : parseISODate newDateStr = some (y, m, d))
    (hne : newDateStr ≠ "") :
    ((getUTCDay y m d = 5 ∨ getUTCDay y m d = 6) →
      (handleDateChange st newDateStr).date = st.date ∧
      (handleDateChange st newDateStr).day = st.day ∧
      (handleDateChange st newDateStr).error =
        "School days are Sunday to Thursday.") ∧
    (¬(getUTCDay y m d = 5 ∨ getUTCDay y m d = 6) →
      (handleDateChange st newDateStr).date = newDateStr ∧
      (handleDateChange st newDateStr).day = weekdayName (getUTCDay y m d) ∧
      (handleDateChange st newDateStr).error = "") ∧
    weekdayName 5 = "Friday" ∧ weekdayName 6 = "Saturday" := by
  refine ⟨?_, ?_, rfl, rfl⟩
  · intro hdow
    simp [handleDateChange, hne, hparse, hdow]
  · intro hdow
    simp [handleDateChange, hne, hparse, hdow]

/-- Witness for C9: 2026-02-13 is a Friday and is rejected without touching
the stored date and day; 2024-01-01 is a Monday and is stored with its
weekday name and a cleared error. -/
theorem handleDateChange_spec_witness :
    ((handleDateChange demoSetupState "2026-02-13").date = demoSetupState.date ∧
      (handleDateChange demoSetupState "2026-02-13").day = demoSetupState.day ∧
      (handleDateChange demoSetupState "2026-02-13").error =
        "School days are Sunday to Thursday.") ∧
    ((handleDateChange demoSetupState "2024-01-01").date = "2024-01-01" ∧
      (handleDateChange demoSetupState "2024-01-01").day =
        weekdayName (getUTCDay 2024 1 1) ∧
      (handleDateChange demoSetupState "2024-01-01").error = "") :=
  ⟨(handleDateChange_spec demoSetupState "2026-02-13" 2026 2 13 (by decide)
      (by decide)).1 (by decide),
   (handleDateChange_spec demoSetupState "2024-01-01" 2024 1 1 (by decide)
      (by decide)).2.1 (by decide)⟩

/-- Claim C10: every record appended through a resolution carries an
integer score in [0, 1100]: the stored score is the resolved points, which
are non-negative and at most 1000 + floor(1000 × 0.10) = 1100. -/
theorem resolution_score_bounds (s : SessionInfo) (id studentName : String)
    (timestamp : ℤ) (msElapsed : ℕ) (isCorrect : Bool) :
    (resolutionRecord s id studentName timestamp msElapsed isCorrect).score =
      some (resolvedPoints (decayScore msElapsed) isCorrect) ∧
    0 ≤ resolvedPoints (decayScore msElapsed) isCorrect ∧
    resolvedPoints (decayScore msElapsed) isCorrect ≤ 1100 := by
  have h0 := decayScore_nonneg msElapsed
  have h1 := decayScore_le_1000 msElapsed
  have hq0 : 0 ≤ decayScore msElapsed / 10 := Int.ediv_nonneg h0 (by norm_num)
  have hq1 : decayScore msElapsed / 10 ≤ 100 := by
    have h2 := Int.ediv_le_ediv (by norm_num : (0 : ℤ) < 10) h1
    simpa using h2
  cases isCorrect with
  | false =>
    refine ⟨rfl, ?_, ?_⟩ <;> norm_num [resolvedPoints]
  | true =>
    refine ⟨rfl, ?_, ?_⟩ <;>
      rw [resolvedPoints, if_pos rfl, handleCorrectTotal,
        handleCorrectBonus_eq_ediv] <;>
      linarith

/-- Witness for C10 at a concrete correct resolution inside the grace
period. -/
theorem resolution_score_bounds_witness :
    (resolutionRecord demoSession "id3" "Amy" 0 2000 true).score =
      some (resolvedPoints (decayScore 2000) true) ∧
    0 ≤ resolvedPoints (decayScore 2000) true ∧
    resolvedPoints (decayScore 2000) true ≤ 1100 :=
  resolution_score_bounds demoSession "id3" "Amy" 0 2000 true

end EnglishGenius
